import Mathlib

/-!
Shallow embedding of the orbimage pixel-buffer library (src/src/lib.rs) with
proofs about its specification.  Machine u32 arithmetic is modelled on Nat
with explicit reduction modulo 2^32 (release-mode wrapping semantics); usize
arithmetic is modelled on plain Nat.  External collaborators (the orbclient
renderer, the resampling engine, the bmp/jpg/png decoder modules, which are
not part of the core source file) are modelled abstractly, as noted on each
definition.
-/

/-- Size of the u32 value range; u32 arithmetic in the source wraps modulo
this constant. -/
def u32Size : Nat := 4294967296

/-- Modelled from the spec: PackedColor, the external renderer's color type,
a single packed 32-bit value holding four 8-bit channels with no padding. -/
structure Color where
  data : Nat
deriving DecidableEq

/-- Modelled from the spec: the packed color with the given red, green and
blue channels and an opaque (255) alpha channel, as the external renderer's
rgb constructor produces it. -/
def Color.rgb (r g b : Nat) : Color :=
  { data := 255 * 16777216 + r * 65536 + g * 256 + b }

/-- The owned pixel buffer (struct Image, lib.rs lines 46-50): width, height
and the flat backing data. -/
structure Image where
  w : Nat
  h : Nat
  data : List Color
deriving DecidableEq

/-- The error message Image::from_data returns on a length mismatch
(lib.rs line 66). -/
def dimMismatchMsg : String :=
  "not enough or too much data given compared to width and height"

/-- Image::from_data (lib.rs lines 64-74).  The product width * height is
computed in u32 arithmetic, so it wraps modulo 2^32 before being compared
(as a usize) with the data length. -/
def Image.from_data (width height : Nat) (data : List Color) : Except String Image :=
  if (width * height) % u32Size ≠ data.length then
    Except.error dimMismatchMsg
  else
    Except.ok { w := width, h := height, data := data }

/-- Image::from_color (lib.rs lines 59-61): allocates width * height copies
of the color (the vec length is computed in usize arithmetic) and unwraps
the result of from_data; none models the unwrap aborting the program. -/
def Image.from_color (width height : Nat) (color : Color) : Option Image :=
  (Image.from_data width height (List.replicate (width * height) color)).toOption

/-- Image::new (lib.rs lines 54-56): from_color with opaque black. -/
def Image.new (width height : Nat) : Option Image :=
  Image.from_color width height (Color.rgb 0 0 0)

/-- Image::into_data (lib.rs lines 138-140). -/
def Image.into_data (img : Image) : List Color :=
  img.data

/-- Renderer::data_mut for Image (lib.rs lines 165-167) hands the caller a
mutable slice over the backing data; writing through a slice replaces pixel
values but can never change the slice's length.  This models one such
write; any mutation through data_mut is a sequence of these. -/
def Image.writePixel (img : Image) (i : Nat) (c : Color) : Image :=
  { img with data := img.data.set i c }

/-- A clamped region of interest into an image (struct ImageRoi, lib.rs
lines 23-29).  The source crate exposes no way to build one except
Image::roi, so every ImageRoi in scope has the clamped shape roi creates. -/
structure ImageRoi where
  x : Nat
  y : Nat
  w : Nat
  h : Nat
  image : Image
deriving DecidableEq

/-- Image::roi (lib.rs lines 122-135).  The sums x + w and y + h are u32
additions and wrap modulo 2^32; width() and height() are the image's w and
h fields. -/
def Image.roi (img : Image) (x y w h : Nat) : ImageRoi :=
  let x1 := min x img.w
  let y1 := min y img.h
  let x2 := max x1 (min ((x + w) % u32Size) img.w)
  let y2 := max y1 (min ((y + h) % u32Size) img.h)
  { x := x1, y := y1, w := x2 - x1, h := y2 - y1, image := img }

/-- One invocation of the external renderer's image primitive (the blit):
the destination origin, the blit width and height passed, and the pixel
slice passed. -/
structure Blit where
  x : Int
  y : Int
  w : Nat
  h : Nat
  pixels : List Color
deriving DecidableEq

/-- Image::draw (lib.rs lines 143-145): a single blit of the whole buffer
at the given origin. -/
def Image.draw (img : Image) (x y : Int) : List Blit :=
  [⟨x, y, img.w, img.h, img.data⟩]

/-- The while loop of ImageRoi::draw (lib.rs lines 37-42), returning the
blit calls it makes in order.  Each iteration blits one scan line of width
w at the current offset (the slice passed is the whole tail of the data
from that offset, exactly as the source passes data[offset..]) and then
advances the offset by the full stride.  The guard 0 < stride is added
only so the recursion is total; when stride = 0 the source loop is never
entered either for any region Image::roi produces (the initial offset is
then x1 with x1 = min x 0 = 0 and the last offset is min x1 len = 0). -/
def drawLoop (data : List Color) (stride w : Nat) (x : Int) (last offset : Nat) (y : Int) : List Blit :=
  if hg : offset < last ∧ 0 < stride then
    ⟨x, y, w, 1, data.drop offset⟩ :: drawLoop data stride w x last (offset + stride) (y + 1)
  else
    []
termination_by last - offset
decreasing_by omega

/-- Number of iterations the ImageRoi::draw loop performs from a given
offset, defined by the same recursion as drawLoop. -/
def rowCount (stride last offset : Nat) : Nat :=
  if hg : offset < last ∧ 0 < stride then
    rowCount stride last (offset + stride) + 1
  else
    0
termination_by last - offset
decreasing_by omega

/-- The initial offset of ImageRoi::draw (lib.rs line 35): self.y * stride
+ self.x computed in u32 arithmetic, then cast to usize. -/
def roiRowStart (r : ImageRoi) : Nat :=
  (r.y * r.image.w + r.x) % u32Size

/-- The last offset of ImageRoi::draw (lib.rs line 36): the minimum of
(self.y + self.h) * stride + self.x, computed in u32 arithmetic, and the
length of the backing data. -/
def roiLastOffset (r : ImageRoi) : Nat :=
  min (((r.y + r.h) * r.image.w + r.x) % u32Size) r.image.data.length

/-- The number of scan lines ImageRoi::draw blits. -/
def roiRows (r : ImageRoi) : Nat :=
  rowCount r.image.w (roiLastOffset r) (roiRowStart r)

/-- ImageRoi::draw (lib.rs lines 33-43): the list of blit calls made on the
renderer, in order. -/
def ImageRoi.draw (r : ImageRoi) (x y : Int) : List Blit :=
  drawLoop r.image.data r.image.w r.w x (roiLastOffset r) (roiRowStart r) y

/-- Image::resize (lib.rs lines 102-119): allocates a destination of
w * h zero pixels (the vec length computed in usize arithmetic), lets the
external resampling engine overwrite it through a fixed-length raw byte
view of the pixels, and rebuilds an image from the destination with
from_data.  The engine is abstract here: it receives the source image, the
target dimensions and the zero-initialized destination and yields the
final destination contents; the source discards the engine call's returned
value, so nothing of the engine's outcome other than the bytes it wrote is
ever inspected. -/
def Image.resize (img : Image) (w h : Nat)
    (engine : Image → Nat → Nat → List Color → List Color) : Except String Image :=
  Image.from_data w h (engine img w h (List.replicate (w * h) ⟨0⟩))

/-- Modelled from the spec: a format decoder (the bmp, jpg and png modules
of this crate are declared in lib.rs lines 19-21 but their files are not
part of the core source): a pure function from the file bytes to a decoded
buffer or a decode failure, where every buffer it returns was produced
through the construction paths of the data model and hence satisfies their
length invariant. -/
structure Decoder where
  parse : List Nat → Except String Image
  parse_ok : ∀ b img, parse b = Except.ok img → img.data.length = (img.w * img.h) % u32Size

/-- Modelled from the spec: lower-casing of one character, as used by the
case-insensitive extension comparison; an ASCII uppercase letter maps to
its lowercase form and every other character is unchanged (the recognized
extension strings are all ASCII). -/
def lowerChar (c : Char) : Char :=
  if 65 ≤ c.toNat ∧ c.toNat ≤ 90 then Char.ofNat (c.toNat + 32) else c

/-- Modelled from the spec: the lower-casing from_path applies to the
extension string before comparing it. -/
def lowerString (s : String) : String :=
  ⟨s.data.map lowerChar⟩

/-- The inner match of Image::from_path (lib.rs lines 84-89): dispatch on
the already lower-cased extension string. -/
def extensionDispatch (eLower : String) (bytes : List Nat)
    (bmpDec jpgDec pngDec : Decoder) : Except String Image :=
  match eLower with
  | "bmp" => bmpDec.parse bytes
  | "jpg" | "jpeg" => jpgDec.parse bytes
  | "png" => pngDec.parse bytes
  | other => Except.error ("unknown image extension: " ++ other)

/-- Image::from_path (lib.rs lines 77-94) after a successful file read:
the extension dispatch.  The extension argument is none when
Path::extension is absent, some none when the extension is not valid
unicode, and some (some e) otherwise; the dispatch lower-cases e and
selects a decoder, or fails without invoking any decoder. -/
def Image.from_path (ext : Option (Option String)) (bytes : List Nat)
    (bmpDec jpgDec pngDec : Decoder) : Except String Image :=
  match ext with
  | some (some e) => extensionDispatch (lowerString e) bytes bmpDec jpgDec pngDec
  | some none => Except.error "image extension not valid unicode"
  | none => Except.error "no image extension"

/-- Modelled from the spec: the display capability contract's
image(x, y, w, h, pixels) primitive copies w * h packed colors row-major at
the given origin with row advance w; this lists the (column, row, color)
writes it performs in order. -/
def blitWrites (b : Blit) : List (Int × Int × Color) :=
  (List.range (b.w * b.h)).map fun i =>
    (b.x + Int.ofNat (i % b.w), b.y + Int.ofNat (i / b.w), b.pixels.getD i ⟨0⟩)

/-- The length relation every construction path of the source actually
enforces between the backing data and the dimensions. -/
def Image.valid (img : Image) : Prop :=
  img.data.length = (img.w * img.h) % u32Size

/-- A concrete 10 by 10 buffer, the image Image::new 10 10 constructs. -/
def img10 : Image :=
  { w := 10, h := 10, data := List.replicate 100 (Color.rgb 0 0 0) }

theorem from_data_ok_iff (width height : Nat) (d : List Color) (img : Image) :
    Image.from_data width height d = Except.ok img ↔
      (d.length = (width * height) % u32Size ∧ img = ⟨width, height, d⟩) := by
  unfold Image.from_data
  by_cases hc : (width * height) % u32Size ≠ d.length
  · rw [if_pos hc]
    constructor
    · intro h
      exact Except.noConfusion h
    · intro h
      exact absurd h.1.symm hc
  · rw [if_neg hc]
    push_neg at hc
    constructor
    · intro h
      injection h with h2
      exact ⟨hc.symm, h2.symm⟩
    · intro h
      rw [h.2]

theorem from_data_error_of_ne (width height : Nat) (d : List Color)
    (hne : d.length ≠ (width * height) % u32Size) :
    Image.from_data width height d = Except.error dimMismatchMsg := by
  unfold Image.from_data
  rw [if_pos (fun he => hne he.symm)]

theorem from_color_eq_some_iff (width height : Nat) (c : Color) (img : Image) :
    Image.from_color width height c = some img ↔
      Image.from_data width height (List.replicate (width * height) c) = Except.ok img := by
  unfold Image.from_color
  cases hfd : Image.from_data width height (List.replicate (width * height) c) with
  | error e => simp [Except.toOption]
  | ok i => simp [Except.toOption]

theorem drawLoop_eq_aux (data : List Color) (stride w : Nat) (x : Int) (last : Nat) :
    ∀ (k offset : Nat) (y : Int), last - offset ≤ k →
      drawLoop data stride w x last offset y =
        (List.range (rowCount stride last offset)).map
          (fun (i : Nat) => ⟨x, y + (i : Int), w, 1, data.drop (offset + i * stride)⟩) := by
  intro k
  induction k with
  | zero =>
    intro offset y hk
    have hno : ¬ (offset < last ∧ 0 < stride) := by omega
    rw [drawLoop, rowCount, dif_neg hno, dif_neg hno]
    rfl
  | succ k ih =>
    intro offset y hk
    by_cases hc : offset < last ∧ 0 < stride
    · rw [drawLoop, rowCount, dif_pos hc, dif_pos hc]
      rw [List.range_succ_eq_map, List.map_cons, List.map_map]
      have hrec := ih (offset + stride) (y + 1) (by omega)
      rw [hrec]
      have hfun : ((fun (i : Nat) => (⟨x, y + (i : Int), w, 1, data.drop (offset + i * stride)⟩ : Blit)) ∘ Nat.succ)
          = fun (i : Nat) => ⟨x, (y + 1) + (i : Int), w, 1, data.drop ((offset + stride) + i * stride)⟩ := by
        funext i
        simp only [Function.comp]
        congr 1
        · push_cast
          ring
        · congr 1
          rw [Nat.succ_mul]
          ring
      rw [hfun]
      congr 1
      simp
    · rw [drawLoop, rowCount, dif_neg hc, dif_neg hc]
      rfl

theorem drawLoop_eq (data : List Color) (stride w : Nat) (x : Int) (last offset : Nat) (y : Int) :
    drawLoop data stride w x last offset y =
      (List.range (rowCount stride last offset)).map
        (fun (i : Nat) => ⟨x, y + (i : Int), w, 1, data.drop (offset + i * stride)⟩) :=
  drawLoop_eq_aux data stride w x last last offset y (Nat.sub_le last offset)

theorem lt_rowCount_iff_aux (stride last : Nat) :
    ∀ (k offset i : Nat), last - offset ≤ k →
      (i < rowCount stride last offset ↔ (0 < stride ∧ offset + i * stride < last)) := by
  intro k
  induction k with
  | zero =>
    intro offset i hk
    have hno : ¬ (offset < last ∧ 0 < stride) := by omega
    rw [rowCount, dif_neg hno]
    constructor
    · intro h
      exact absurd h (Nat.not_lt_zero i)
    · intro h
      exact absurd (by omega : offset < last) (by omega)
  | succ k ih =>
    intro offset i hk
    by_cases hc : offset < last ∧ 0 < stride
    · rw [rowCount, dif_pos hc]
      cases i with
      | zero =>
        simp only [Nat.zero_mul, Nat.add_zero]
        omega
      | succ j =>
        have hj := ih (offset + stride) j (by omega)
        rw [Nat.succ_lt_succ_iff, hj, Nat.succ_mul]
        constructor
        · intro h
          exact ⟨h.1, by omega⟩
        · intro h
          exact ⟨h.1, by omega⟩
    · rw [rowCount, dif_neg hc]
      constructor
      · intro h
        exact absurd h (Nat.not_lt_zero i)
      · intro h
        have h1 := h.1
        have h2 := h.2
        have : offset < last := by
          have := Nat.le_add_right offset (i * stride)
          omega
        exact absurd ⟨this, h1⟩ hc

theorem lt_rowCount_iff (stride last offset i : Nat) :
    i < rowCount stride last offset ↔ (0 < stride ∧ offset + i * stride < last) :=
  lt_rowCount_iff_aux stride last last offset i (Nat.sub_le last offset)

/-- C1 counterexample: from_data 65536 65536 with empty data succeeds, because
the u32 product 65536 * 65536 wraps to 0, so an image whose data length 0
differs from width * height = 2^32 is reachable through a public
constructor; the stated invariant fails on it. -/
theorem c1_invariant_counterexample :
    Image.from_data 65536 65536 ([] : List Color) = Except.ok ⟨65536, 65536, []⟩ ∧
    ([] : List Color).length ≠ 65536 * 65536 := by
  constructor
  · rfl
  · decide

/-- C1 (amended): every image reachable through the public constructors
satisfies data length = (width * height) mod 2^32 (which is width * height
whenever the product fits in u32), every image a decoder returns satisfies
it, and mutation through data_mut preserves it. -/
theorem c1_length_invariant_mod_u32 :
    (∀ w h d img, Image.from_data w h d = Except.ok img → Image.valid img) ∧
    (∀ w h c img, Image.from_color w h c = some img → Image.valid img) ∧
    (∀ w h img, Image.new w h = some img → Image.valid img) ∧
    (∀ img w h e img2, Image.resize img w h e = Except.ok img2 → Image.valid img2) ∧
    (∀ ext bytes B J P img,
        Image.from_path ext bytes B J P = Except.ok img → Image.valid img) ∧
    (∀ img i c, Image.valid img → Image.valid (Image.writePixel img i c)) := by
  have hfd : ∀ w h d img, Image.from_data w h d = Except.ok img → Image.valid img := by
    intro w h d img hok
    rw [from_data_ok_iff] at hok
    rw [hok.2]
    exact hok.1
  refine ⟨hfd, ?_, ?_, ?_, ?_, ?_⟩
  · intro w h c img hok
    rw [from_color_eq_some_iff] at hok
    exact hfd _ _ _ _ hok
  · intro w h img hok
    rw [Image.new, from_color_eq_some_iff] at hok
    exact hfd _ _ _ _ hok
  · intro img w h e img2 hok
    exact hfd _ _ _ _ hok
  · intro ext bytes B J P img hok
    unfold Image.from_path at hok
    split at hok
    · unfold extensionDispatch at hok
      split at hok
      · exact B.parse_ok _ _ hok
      · exact J.parse_ok _ _ hok
      · exact J.parse_ok _ _ hok
      · exact P.parse_ok _ _ hok
      · exact Except.noConfusion hok
    · exact Except.noConfusion hok
    · exact Except.noConfusion hok
  · intro img i c hval
    simpa [Image.valid, Image.writePixel] using hval

/-- C2 counterexample: from_data 65536 65536 with an empty data slice
succeeds even though the data length 0 is not 65536 * 65536, refuting the
stated equivalence (the length check wraps the product modulo 2^32). -/
theorem c2_from_data_counterexample :
    (Image.from_data 65536 65536 ([] : List Color)).toOption.isSome = true ∧
    ¬ (([] : List Color).length = 65536 * 65536) := by
  constructor
  · rfl
  · decide

/-- C2 (amended): from_data w h data succeeds exactly when the data length
equals (w * h) mod 2^32 (equal to w * h whenever the product fits in u32),
and otherwise fails with the dimension-mismatch error; in particular
from_data 2 2 with three pixels fails with that error and with four pixels
succeeds. -/
theorem c2_from_data_iff_mod_u32 :
    (∀ w h d, (Image.from_data w h d).toOption.isSome = true ↔
        d.length = (w * h) % u32Size) ∧
    (∀ w h d, d.length ≠ (w * h) % u32Size →
        Image.from_data w h d = Except.error dimMismatchMsg) ∧
    (Image.from_data 2 2 (List.replicate 3 (Color.rgb 0 0 0)) =
        Except.error dimMismatchMsg) ∧
    (Image.from_data 2 2 (List.replicate 4 (Color.rgb 0 0 0)) =
        Except.ok ⟨2, 2, List.replicate 4 (Color.rgb 0 0 0)⟩) := by
  refine ⟨?_, ?_, by rfl, by rfl⟩
  · intro w h d
    constructor
    · intro hs
      cases hok : Image.from_data w h d with
      | error e => rw [hok] at hs; exact Bool.noConfusion hs
      | ok img => exact ((from_data_ok_iff w h d img).mp hok).1
    · intro hl
      rw [(from_data_ok_iff w h d ⟨w, h, d⟩).mpr ⟨hl, rfl⟩]
      rfl
  · intro w h d hne
    exact from_data_error_of_ne w h d hne

/-- C7: the code contradicts the claim at width = height = 65536: from_color
builds a vector of exactly width * height = 2^32 copies of the color, but
from_data computes the product in u32 arithmetic, where it wraps to 0, so
the correctly sized vector is rejected and the unwrap aborts (modelled as
none).  For every product that fits in u32 the claimed behavior holds. -/
theorem c7_from_color_overflow_aborts :
    Image.from_color 65536 65536 (Color.rgb 255 255 255) = none ∧
    (∀ w h c, w * h < u32Size →
        Image.from_color w h c = some ⟨w, h, List.replicate (w * h) c⟩) := by
  constructor
  · unfold Image.from_color
    rw [from_data_error_of_ne]
    · rfl
    · rw [List.length_replicate]
      norm_num [u32Size]
  · intro w h c hlt
    rw [from_color_eq_some_iff,
      (from_data_ok_iff w h (List.replicate (w * h) c) ⟨w, h, List.replicate (w * h) c⟩).mpr]
    exact ⟨by rw [List.length_replicate, Nat.mod_eq_of_lt hlt], rfl⟩

/-- C8: the code contradicts the claim at width = height = 65536: new
delegates to from_color, whose correctly sized allocation of 2^32 opaque
black pixels is rejected by from_data's u32-wrapped length check, so the
unwrap aborts (modelled as none) instead of never failing.  For every
product that fits in u32, including zero dimensions, new returns the
buffer of width * height opaque black pixels. -/
theorem c8_new_overflow_aborts :
    Image.new 65536 65536 = none ∧
    (∀ w h, w * h < u32Size →
        Image.new w h = some ⟨w, h, List.replicate (w * h) (Color.rgb 0 0 0)⟩) ∧
    Image.new 0 0 = some ⟨0, 0, []⟩ ∧
    (Color.rgb 0 0 0).data = 4278190080 := by
  refine ⟨?_, ?_, by rfl, by rfl⟩
  · unfold Image.new Image.from_color
    rw [from_data_error_of_ne]
    · rfl
    · rw [List.length_replicate]
      norm_num [u32Size]
  · intro w h hlt
    unfold Image.new
    rw [from_color_eq_some_iff,
      (from_data_ok_iff w h (List.replicate (w * h) (Color.rgb 0 0 0)) _).mpr]
    exact ⟨by rw [List.length_replicate, Nat.mod_eq_of_lt hlt], rfl⟩

/-- C10: when from_data succeeds, the image stores the caller-supplied
pixels unchanged, so into_data returns exactly the data passed in. -/
theorem c10_from_data_into_data (w h : Nat) (d : List Color) (img : Image)
    (hok : Image.from_data w h d = Except.ok img) :
    Image.into_data img = d := by
  rw [from_data_ok_iff] at hok
  rw [hok.2]
  rfl

/-- C10 witness: from_data 2 2 on four pixels succeeds and into_data gives
back those four pixels. -/
theorem c10_witness :
    Image.into_data ⟨2, 2, List.replicate 4 (Color.rgb 0 0 0)⟩ =
      List.replicate 4 (Color.rgb 0 0 0) :=
  c10_from_data_into_data 2 2 (List.replicate 4 (Color.rgb 0 0 0))
    ⟨2, 2, List.replicate 4 (Color.rgb 0 0 0)⟩ (by rfl)

/-- C3: roi is total (it always yields a region) and clamps every requested
rectangle into the buffer: the region's x is nonnegative and x + w stays
within the buffer width, likewise for y and h; and on the 10 by 10 buffer
Image.new 10 10 constructs, roi 8 8 5 5 yields the region x 8, y 8, w 2,
h 2. -/
theorem c3_roi_clamps :
    (∀ img x y w h, 0 ≤ (Image.roi img x y w h).x ∧
        (Image.roi img x y w h).x + (Image.roi img x y w h).w ≤ img.w ∧
        0 ≤ (Image.roi img x y w h).y ∧
        (Image.roi img x y w h).y + (Image.roi img x y w h).h ≤ img.h) ∧
    Image.new 10 10 = some img10 ∧
    (img10.roi 8 8 5 5).x = 8 ∧ (img10.roi 8 8 5 5).y = 8 ∧
    (img10.roi 8 8 5 5).w = 2 ∧ (img10.roi 8 8 5 5).h = 2 := by
  refine ⟨?_, by rfl, by rfl, by rfl, by rfl, by rfl⟩
  intro img x y w h
  simp only [Image.roi]
  omega

/-- C4 (amended): for every engine-produced destination of the allocated
length w * h, resize returns a buffer of exactly w * h pixels whenever the
product fits in u32, and otherwise fails with the dimension-mismatch error
result (never a crash); the engine's own outcome is discarded by the
adapter, so no other failure is ever surfaced. -/
theorem c4_resize_pixel_count (img : Image) (w h : Nat)
    (engine : Image → Nat → Nat → List Color → List Color)
    (hlen : (engine img w h (List.replicate (w * h) ⟨0⟩)).length = w * h) :
    (w * h < u32Size →
        Image.resize img w h engine =
          Except.ok ⟨w, h, engine img w h (List.replicate (w * h) ⟨0⟩)⟩ ∧
        (engine img w h (List.replicate (w * h) ⟨0⟩)).length = w * h) ∧
    (u32Size ≤ w * h →
        Image.resize img w h engine = Except.error dimMismatchMsg) := by
  constructor
  · intro hlt
    refine ⟨?_, hlen⟩
    unfold Image.resize
    exact (from_data_ok_iff _ _ _ _).mpr ⟨by rw [hlen, Nat.mod_eq_of_lt hlt], rfl⟩
  · intro hge
    unfold Image.resize
    apply from_data_error_of_ne
    rw [hlen]
    have : (w * h) % u32Size < u32Size := Nat.mod_lt _ (by norm_num [u32Size])
    omega

/-- C4 witness: resizing a 1 by 1 image to 1 by 1 with an engine that keeps
the destination unchanged returns the 1-pixel buffer. -/
theorem c4_witness :
    Image.resize ⟨1, 1, [Color.rgb 0 0 0]⟩ 1 1 (fun _ _ _ d => d) =
      Except.ok ⟨1, 1, [⟨0⟩]⟩ :=
  (c4_resize_pixel_count ⟨1, 1, [Color.rgb 0 0 0]⟩ 1 1 (fun _ _ _ d => d)
    (by rfl)).1 (by norm_num [u32Size]) |>.1

/-- C4 counterexample: resizing a 1 by 1 image to 65536 by 65536 with an
engine that fills the whole destination (its allocated length is the usize
product 2^32) does not return a 2^32-pixel buffer and does not fail with a
resize-failure error: it fails with the dimension-mismatch error, because
from_data's u32 product wraps to 0. -/
theorem c4_resize_counterexample :
    Image.resize ⟨1, 1, [Color.rgb 0 0 0]⟩ 65536 65536 (fun _ _ _ d => d) =
      Except.error dimMismatchMsg := by
  unfold Image.resize
  apply from_data_error_of_ne
  rw [List.length_replicate]
  norm_num [u32Size]

/-- C5: extension dispatch depends only on the lower-cased extension (so it
is case-insensitive), the extensions bmp, jpg, jpeg and png reach the
corresponding decoder with a.PNG and a.png selecting the same one, and an
unrecognized, absent or non-unicode extension fails with the respective
error before any decoder is consulted (the result is the same constant for
every choice of decoders). -/
theorem c5_extension_dispatch :
    (∀ s t bytes B J P, lowerString s = lowerString t →
        Image.from_path (some (some s)) bytes B J P =
          Image.from_path (some (some t)) bytes B J P) ∧
    (∀ bytes B J P,
        Image.from_path (some (some "PNG")) bytes B J P = P.parse bytes ∧
        Image.from_path (some (some "png")) bytes B J P = P.parse bytes ∧
        Image.from_path (some (some "bmp")) bytes B J P = B.parse bytes ∧
        Image.from_path (some (some "jpg")) bytes B J P = J.parse bytes ∧
        Image.from_path (some (some "jpeg")) bytes B J P = J.parse bytes) ∧
    (∀ bytes B J P,
        Image.from_path (some (some "gif")) bytes B J P =
          Except.error "unknown image extension: gif" ∧
        Image.from_path none bytes B J P =
          Except.error "no image extension" ∧
        Image.from_path (some none) bytes B J P =
          Except.error "image extension not valid unicode") := by
  refine ⟨?_, ?_, ?_⟩
  · intro s t bytes B J P hst
    simp only [Image.from_path]
    rw [hst]
  · intro bytes B J P
    have hPNG : lowerString "PNG" = "png" := by decide
    have hpng : lowerString "png" = "png" := by decide
    have hbmp : lowerString "bmp" = "bmp" := by decide
    have hjpg : lowerString "jpg" = "jpg" := by decide
    have hjpeg : lowerString "jpeg" = "jpeg" := by decide
    refine ⟨?_, ?_, ?_, ?_, ?_⟩
    · simp only [Image.from_path, hPNG]
      rfl
    · simp only [Image.from_path, hpng]
      rfl
    · simp only [Image.from_path, hbmp]
      rfl
    · simp only [Image.from_path, hjpg]
      rfl
    · simp only [Image.from_path, hjpeg]
      rfl
  · intro bytes B J P
    have hgif : lowerString "gif" = "gif" := by decide
    refine ⟨?_, ?_, ?_⟩
    · simp only [Image.from_path, hgif]
      rfl
    · rfl
    · rfl

/-- C6: for every region roi produces and every destination origin, draw
blits one scan line per row: the i-th blit passes the region's width with
height 1 and the source data from offset start + i * stride (stride being
the source buffer's full width), at destination row y + i; a row is blitted
exactly when its offset is below the minimum of the region's last row
offset and the data length (both as the source computes them); and under
the display contract each line copies exactly the region's width many
pixels. -/
theorem c6_roi_draw_strided (img : Image) (rx ry rw rh : Nat) (dx dy : Int) :
    ((img.roi rx ry rw rh).draw dx dy =
      (List.range (roiRows (img.roi rx ry rw rh))).map
        (fun (i : Nat) => ⟨dx, dy + (i : Int), (img.roi rx ry rw rh).w, 1,
          img.data.drop (roiRowStart (img.roi rx ry rw rh) + i * img.w)⟩)) ∧
    (∀ i, i < roiRows (img.roi rx ry rw rh) ↔
        (0 < img.w ∧
          roiRowStart (img.roi rx ry rw rh) + i * img.w <
            roiLastOffset (img.roi rx ry rw rh))) ∧
    (∀ b, b ∈ (img.roi rx ry rw rh).draw dx dy →
        b.w = (img.roi rx ry rw rh).w ∧ b.h = 1 ∧
        (blitWrites b).length = (img.roi rx ry rw rh).w) := by
  have hdraw : (img.roi rx ry rw rh).draw dx dy =
      (List.range (roiRows (img.roi rx ry rw rh))).map
        (fun (i : Nat) => ⟨dx, dy + (i : Int), (img.roi rx ry rw rh).w, 1,
          img.data.drop (roiRowStart (img.roi rx ry rw rh) + i * img.w)⟩) :=
    drawLoop_eq img.data img.w (img.roi rx ry rw rh).w dx
      (roiLastOffset (img.roi rx ry rw rh)) (roiRowStart (img.roi rx ry rw rh)) dy
  refine ⟨hdraw, ?_, ?_⟩
  · intro i
    exact lt_rowCount_iff img.w (roiLastOffset (img.roi rx ry rw rh))
      (roiRowStart (img.roi rx ry rw rh)) i
  · intro b hb
    rw [hdraw] at hb
    rcases List.mem_map.mp hb with ⟨i, hi, rfl⟩
    refine ⟨rfl, rfl, ?_⟩
    simp [blitWrites]

/-- C9: a full-buffer draw makes a single blit call passing the whole
buffer, and under the display contract that blit performs exactly
width * height writes, the i-th write putting the i-th source pixel at
column x + i mod width of row y + i div width (row advance equal to the
buffer's own width), with no two writes landing on the same position. -/
theorem c9_full_draw (img : Image) (x y : Int) :
    Image.draw img x y = [⟨x, y, img.w, img.h, img.data⟩] ∧
    (blitWrites ⟨x, y, img.w, img.h, img.data⟩).length = img.w * img.h ∧
    (∀ i, i < img.w * img.h →
        (blitWrites ⟨x, y, img.w, img.h, img.data⟩).getD i (0, 0, ⟨0⟩) =
          (x + Int.ofNat (i % img.w), y + Int.ofNat (i / img.w),
            img.data.getD i ⟨0⟩)) ∧
    (∀ i j, i < img.w * img.h → j < img.w * img.h →
        (x + Int.ofNat (i % img.w), y + Int.ofNat (i / img.w)) =
          (x + Int.ofNat (j % img.w), y + Int.ofNat (j / img.w)) → i = j) := by
  refine ⟨rfl, by simp [blitWrites], ?_, ?_⟩
  · intro i hi
    simp [blitWrites, List.getD_eq_getElem?_getD, List.getElem?_map,
      List.getElem?_range, hi]
  · intro i j hi hj hpos
    have h1 : x + Int.ofNat (i % img.w) = x + Int.ofNat (j % img.w) :=
      congrArg Prod.fst hpos
    have h2 : y + Int.ofNat (i / img.w) = y + Int.ofNat (j / img.w) :=
      congrArg Prod.snd hpos
    have hmod : i % img.w = j % img.w := Int.ofNat_inj.mp (add_left_cancel h1)
    have hdiv : i / img.w = j / img.w := Int.ofNat_inj.mp (add_left_cancel h2)
    have hi2 := Nat.div_add_mod i img.w
    have hj2 := Nat.div_add_mod j img.w
    calc i = img.w * (i / img.w) + i % img.w := hi2.symm
    _ = img.w * (j / img.w) + j % img.w := by rw [hmod, hdiv]
    _ = j := hj2
